import Mathlib

/-!
Formal model of the multi-timeframe trading strategy repository.

The embedding follows the Python sources:
* strategy/multi_timeframe_strategy.py : indicators (SMA, RSI), trend and
  crossover detection, signal generation, position updates;
* utils/validators.py : greedy trade matching between two ledgers;
* execution/live_engine.py : timeframe parsing;
* data/binance_client.py : order-parameter validation.

Prices are rationals (the floats of the source, with the IEEE special values
NaN and infinity made explicit: an Option value of none encodes NaN, and the
single place where the source relies on a division producing infinity is
spelled out in the definition of rsi).  Series are lists of close prices,
indexed from 0 as the DataFrames are.
-/

namespace Trading

/-- Strategy configuration, the constructor fields of MultiTimeframeStrategy
(periods are the window sizes handed to pandas rolling). -/
structure Params where
  fast_sma : ℕ
  slow_sma : ℕ
  trend_sma : ℕ
  rsi_period : ℕ
  rsi_overbought : ℚ
  rsi_oversold : ℚ
  deriving Repr, DecidableEq

/-- Trading signal, the Literal type Signal = BUY | SELL | HOLD. -/
inductive Signal
  | buy
  | sell
  | hold
  deriving Repr, DecidableEq

/-- Open-position marker: self.position is either None (flat) or the string
LONG, so the state is modelled as Option Pos. -/
inductive Pos
  | long
  deriving Repr, DecidableEq

/-- Crossover result of check_sma_crossover (the strings BULLISH / BEARISH). -/
inductive Cross
  | bullish
  | bearish
  deriving Repr, DecidableEq

/-- Trend direction returned by get_trend_direction (the strings UP / DOWN). -/
inductive Trend
  | up
  | down
  deriving Repr, DecidableEq

/-- Comparison of possibly-NaN floats: in Python a comparison with NaN is
false, so a comparison involving none yields false. -/
def oLe (a b : Option ℚ) : Bool :=
  match a, b with
  | some x, some y => decide (x ≤ y)
  | _, _ => false

/-- Strict version of oLe, with the same NaN convention. -/
def oLt (a b : Option ℚ) : Bool :=
  match a, b with
  | some x, some y => decide (x < y)
  | _, _ => false

/-- Simple moving average: pandas rolling(window=w).mean() of the close column
at row i.  The value is NaN (none) until the window fills, i.e. it is defined
exactly when 1 ≤ w and w ≤ i + 1 and i is a valid row (pandas rejects a
window < 1 when the rolling object is built). -/
def sma (w : ℕ) (xs : List ℚ) (i : ℕ) : Option ℚ :=
  if 1 ≤ w ∧ w ≤ i + 1 ∧ i < xs.length then
    some ((((List.range w).map fun k => xs.getD (i - k) 0).sum) / (w : ℚ))
  else none

/-- Per-bar gain delta.where(delta > 0, 0) at row i: the diff at row 0 is NaN,
and the where-clause replaces it by 0 because NaN > 0 is false. -/
def gainAt (xs : List ℚ) (i : ℕ) : ℚ :=
  if i = 0 then 0
  else
    let d := xs.getD i 0 - xs.getD (i - 1) 0
    if 0 < d then d else 0

/-- Per-bar loss (-delta.where(delta < 0, 0)) at row i, with the same
treatment of row 0 as gainAt. -/
def lossAt (xs : List ℚ) (i : ℕ) : ℚ :=
  if i = 0 then 0
  else
    let d := xs.getD i 0 - xs.getD (i - 1) 0
    if d < 0 then -d else 0

/-- Rolling mean of the gain column over window p, defined from row p-1 on
(the gain column itself has no NaN). -/
def avgGain (p : ℕ) (xs : List ℚ) (i : ℕ) : Option ℚ :=
  if 1 ≤ p ∧ p ≤ i + 1 ∧ i < xs.length then
    some ((((List.range p).map fun k => gainAt xs (i - k)).sum) / (p : ℚ))
  else none

/-- Rolling mean of the loss column over window p. -/
def avgLoss (p : ℕ) (xs : List ℚ) (i : ℕ) : Option ℚ :=
  if 1 ≤ p ∧ p ≤ i + 1 ∧ i < xs.length then
    some ((((List.range p).map fun k => lossAt xs (i - k)).sum) / (p : ℚ))
  else none

/-- RSI column: rs = gain/loss; rsi = 100 - 100/(1+rs).  The source divides
floats, so when the loss average is 0 and the gain average is positive the
quotient is +infinity and 100 - 100/(1+inf) evaluates to exactly 100; when
both averages are 0 the quotient is NaN (0/0) and the RSI is NaN.  Those two
float special cases are written out explicitly here; in every other case the
arithmetic is exact and 1 + g/l > 0, so the rational expression below is the
float expression. -/
def rsi (p : ℕ) (xs : List ℚ) (i : ℕ) : Option ℚ :=
  match avgGain p xs i, avgLoss p xs i with
  | some g, some l =>
      if l = 0 then
        if g = 0 then none else some 100
      else some (100 - 100 / (1 + g / l))
  | _, _ => none

/-- Embedding of get_trend_direction: None when the index is out of range or
the trend SMA is NaN or the close equals the SMA; UP when close > sma_trend,
DOWN when close < sma_trend. -/
def get_trend_direction (tr : ℕ) (df : List ℚ) (i : ℕ) : Option Trend :=
  if i < df.length then
    match sma tr df i with
    | none => none
    | some t =>
        let c := df.getD i 0
        if t < c then some Trend.up
        else if c < t then some Trend.down
        else none
  else none

/-- Embedding of check_sma_crossover.  The outer Option models Python
exceptions: iloc on a row index past the end of the frame raises IndexError,
encoded as the outer none; otherwise the function returns the inner optional
crossover.  The source checks the current fast/slow values for NaN but not
the previous ones; a NaN previous value makes both comparisons false, which
oLe/oLt reproduce. -/
def check_sma_crossover (fast slow : ℕ) (df : List ℚ) (i : ℕ) : Option (Option Cross) :=
  if i < 1 then some none
  else if df.length ≤ i then none
  else
    let fc := sma fast df i
    let sc := sma slow df i
    let fp := sma fast df (i - 1)
    let sp := sma slow df (i - 1)
    if fc = none ∨ sc = none then some none
    else if oLe fp sp && oLt sc fc then some (some Cross.bullish)
    else if oLe sp fp && oLt fc sc then some (some Cross.bearish)
    else some none

/-- Embedding of generate_signal, parametrised by the position read from
self.position.  The outer Option again models exceptions: after the warm-up
guard passes, the source reads iloc[primary_idx] of the primary frame, which
raises when the index is past the end (encoded none); get_trend_direction
bound-checks its own index and cannot raise.  The Python BUY condition
parses, by operator precedence, as
crossover == BULLISH or (trend == UP and rsi < rsi_overbought). -/
def generate_signal (P : Params) (prim sec : List ℚ)
    (primary_idx secondary_idx : ℕ) (position : Option Pos) : Option Signal :=
  if primary_idx < P.slow_sma ∨ secondary_idx < P.trend_sma then some Signal.hold
  else if prim.length ≤ primary_idx then none
  else
    let rsiv := rsi P.rsi_period prim primary_idx
    match check_sma_crossover P.fast_sma P.slow_sma prim primary_idx with
    | none => none
    | some crossover =>
        let trend := get_trend_direction P.trend_sma sec secondary_idx
        match position with
        | none =>
            if crossover = some Cross.bullish ∨
                (trend = some Trend.up ∧ oLt rsiv (some P.rsi_overbought)) then
              some Signal.buy
            else some Signal.hold
        | some Pos.long =>
            if crossover = some Cross.bearish ∨ oLt (some P.rsi_overbought) rsiv then
              some Signal.sell
            else some Signal.hold

/-- Mutable state of a MultiTimeframeStrategy instance: the fields the
methods assign (self.position and self.entry_price). -/
structure StratState where
  position : Option Pos
  entry_price : Option ℚ
  deriving Repr, DecidableEq

/-- State-passing form of the generate_signal method: the same control flow
with the instance state threaded through every return.  The method body
contains no assignment to self, so every exit returns the incoming state. -/
def generate_signalS (P : Params) (prim sec : List ℚ)
    (primary_idx secondary_idx : ℕ) (st : StratState) : Option Signal × StratState :=
  if primary_idx < P.slow_sma ∨ secondary_idx < P.trend_sma then (some Signal.hold, st)
  else if prim.length ≤ primary_idx then (none, st)
  else
    let rsiv := rsi P.rsi_period prim primary_idx
    match check_sma_crossover P.fast_sma P.slow_sma prim primary_idx with
    | none => (none, st)
    | some crossover =>
        let trend := get_trend_direction P.trend_sma sec secondary_idx
        match st.position with
        | none =>
            if crossover = some Cross.bullish ∨
                (trend = some Trend.up ∧ oLt rsiv (some P.rsi_overbought)) then
              (some Signal.buy, st)
            else (some Signal.hold, st)
        | some Pos.long =>
            if crossover = some Cross.bearish ∨ oLt (some P.rsi_overbought) rsiv then
              (some Signal.sell, st)
            else (some Signal.hold, st)

/-- Embedding of update_position: BUY sets position LONG and records the
price, SELL clears both fields, HOLD falls through both branches and leaves
the state alone. -/
def update_position (signal : Signal) (price : ℚ) (st : StratState) : StratState :=
  match signal with
  | Signal.buy => ⟨some Pos.long, some price⟩
  | Signal.sell => ⟨none, none⟩
  | Signal.hold => st

/-- One evaluation context handed to the strategy by a driver: the two
indicator-annotated series, the two indices, and the close price passed to
update_position when the signal executes. -/
structure Obs where
  prim : List ℚ
  sec : List ℚ
  primary_idx : ℕ
  secondary_idx : ℕ
  price : ℚ

/-- A driver run: evaluate generate_signal, apply the emitted signal to the
position via update_position, continue with the next observation.  An
exception (outer none) ends the run. -/
def run (P : Params) : StratState → List Obs → List Signal
  | _, [] => []
  | st, ob :: rest =>
    match generate_signal P ob.prim ob.sec ob.primary_idx ob.secondary_idx st.position with
    | none => []
    | some s => s :: run P (update_position s ob.price st) rest

/-- Trace discipline for C5, tracked against the position the trace implies:
from flat, a SELL is illegal and a BUY moves to long; from long, a BUY is
illegal (it would be a second BUY with no intervening SELL) and a SELL moves
back to flat. -/
def goodTrace : Option Pos → List Signal → Bool
  | _, [] => true
  | none, Signal.sell :: _ => false
  | none, Signal.buy :: rest => goodTrace (some Pos.long) rest
  | none, Signal.hold :: rest => goodTrace none rest
  | some Pos.long, Signal.buy :: _ => false
  | some Pos.long, Signal.sell :: rest => goodTrace none rest
  | some Pos.long, Signal.hold :: rest => goodTrace (some Pos.long) rest

/-- Trade side after the upper-casing in load_trades. -/
inductive Side
  | buy
  | sell
  deriving Repr, DecidableEq

/-- One ledger row as the matcher reads it: the side and the timestamp (in
seconds, an integer stand-in for the pandas Timestamp; only differences of
timestamps are ever used).  The entry_price column feeds the per-match
diagnostics only, never the matching decision or the counts, and is left
out of the model. -/
structure Trade where
  side : Side
  timestamp : ℤ
  deriving Repr, DecidableEq

/-- Inner loop of compare_trades for one backtest row: scan the live rows in
order (j is the running iterrows index), skip a row already used, a row of
the other side, or a row whose absolute time difference exceeds the window,
and return the index of the first remaining row. -/
def findMatch (W : ℤ) (bt : Trade) : List Trade → ℕ → Finset ℕ → Option ℕ
  | [], _, _ => none
  | lv :: rest, j, used =>
    if j ∉ used ∧ lv.side = bt.side ∧ |lv.timestamp - bt.timestamp| ≤ W then some j
    else findMatch W bt rest (j + 1) used

/-- Accumulated counters of compare_trades (the details list of the results
dict is reporting only and not modelled). -/
structure MatchResult where
  matched_trades : ℕ
  unmatched_backtest : ℕ
  used_live : Finset ℕ
  deriving DecidableEq

/-- Outer loop of compare_trades: each backtest row either claims the first
available live row inside the window (incrementing matched_trades and adding
the live index to used_live) or counts as unmatched backtest. -/
def compareGo (W : ℤ) (lvs : List Trade) : List Trade → Finset ℕ → MatchResult
  | [], used => ⟨0, 0, used⟩
  | bt :: rest, used =>
    match findMatch W bt lvs 0 used with
    | some j =>
        let r := compareGo W lvs rest (insert j used)
        ⟨r.matched_trades + 1, r.unmatched_backtest, r.used_live⟩
    | none =>
        let r := compareGo W lvs rest used
        ⟨r.matched_trades, r.unmatched_backtest + 1, r.used_live⟩

/-- Embedding of TradeValidator.compare_trades, returning the triple
(matched_trades, unmatched_backtest, unmatched_live); the last component is
len(df_lv) - len(used_live) as in the source. -/
def compare_trades (W : ℤ) (df_bt df_lv : List Trade) : ℕ × ℕ × ℕ :=
  let r := compareGo W df_lv df_bt ∅
  (r.matched_trades, r.unmatched_backtest, df_lv.length - r.used_live.card)

/-- Value of a non-empty all-digit character string, as Python int() reads
it; none models the ValueError raised on an empty string or a non-digit. -/
def digitsVal? (cs : List Char) : Option ℕ :=
  if cs = [] then none
  else
    cs.foldl
      (fun acc c =>
        match acc with
        | none => none
        | some n => if c.isDigit then some (10 * n + (c.toNat - 48)) else none)
      (some 0)

/-- Python int() on a character string: an optional sign followed by digits
(the exotic accepted forms, whitespace and underscores, are not modelled;
the repository only ever passes timeframe strings like 15m or 1h). -/
def py_int? : List Char → Option ℤ
  | '-' :: rest => (digitsVal? rest).map fun n => -(n : ℤ)
  | '+' :: rest => (digitsVal? rest).map fun n => (n : ℤ)
  | s => (digitsVal? s).map fun n => (n : ℤ)

/-- Embedding of LiveTradingEngine._parse_timeframe_to_seconds, with the
timeframe string as its character list (endswith on a one-character suffix
is a test of the last character).  A suffix of m, h or d converts the digits
before it via int() (none models the ValueError on a malformed number); any
other suffix logs a warning and falls back to the 60-second default. -/
def parse_timeframe_to_seconds (timeframe : List Char) : Option ℤ :=
  if timeframe.getLast? = some 'm' then
    (py_int? timeframe.dropLast).map fun n => n * 60
  else if timeframe.getLast? = some 'h' then
    (py_int? timeframe.dropLast).map fun n => n * 60 * 60
  else if timeframe.getLast? = some 'd' then
    (py_int? timeframe.dropLast).map fun n => n * 24 * 60 * 60
  else some 60

/-- Parameter validation of BinanceClient.create_order: a LIMIT order with no
price raises ValueError before any request is sent; otherwise the optional
price is attached to the parameter map (the HTTP call itself is out of
scope).  The returned value is the price parameter included in the request,
present exactly for LIMIT orders. -/
def create_order_check (order_type : String) (price : Option ℚ) : Except String (Option ℚ) :=
  if order_type = "LIMIT" then
    match price with
    | none => Except.error "Price required for LIMIT orders"
    | some p => Except.ok (some p)
  else Except.ok none

/-! Helper lemmas shared by the claim theorems. -/

/-- On a valid primary row the crossover check never raises: it always
returns some inner value. -/
theorem check_sma_crossover_isSome (fast slow : ℕ) (df : List ℚ) (i : ℕ)
    (hlen : i < df.length) :
    ∃ c, check_sma_crossover fast slow df i = some c := by
  rcases Nat.lt_or_ge i 1 with h1 | h1
  · exact ⟨none, by unfold check_sma_crossover; rw [if_pos h1]⟩
  · unfold check_sma_crossover
    rw [if_neg (by omega), if_neg (by omega)]
    dsimp only
    split_ifs <;> exact ⟨_, rfl⟩

/-- Reduction of generate_signal in the flat state once the guard and the
row access succeed. -/
theorem generate_signal_flat_eq (P : Params) (prim sec : List ℚ) (pIdx sIdx : ℕ)
    (c : Option Cross)
    (hg : ¬(pIdx < P.slow_sma ∨ sIdx < P.trend_sma)) (hl : ¬prim.length ≤ pIdx)
    (hc : check_sma_crossover P.fast_sma P.slow_sma prim pIdx = some c) :
    generate_signal P prim sec pIdx sIdx none =
      if c = some Cross.bullish ∨
          (get_trend_direction P.trend_sma sec sIdx = some Trend.up ∧
            oLt (rsi P.rsi_period prim pIdx) (some P.rsi_overbought) = true) then
        some Signal.buy
      else some Signal.hold := by
  unfold generate_signal
  rw [if_neg hg, if_neg hl, hc]

/-- Reduction of generate_signal in the long state once the guard and the
row access succeed. -/
theorem generate_signal_long_eq (P : Params) (prim sec : List ℚ) (pIdx sIdx : ℕ)
    (c : Option Cross)
    (hg : ¬(pIdx < P.slow_sma ∨ sIdx < P.trend_sma)) (hl : ¬prim.length ≤ pIdx)
    (hc : check_sma_crossover P.fast_sma P.slow_sma prim pIdx = some c) :
    generate_signal P prim sec pIdx sIdx (some Pos.long) =
      if c = some Cross.bearish ∨
          oLt (some P.rsi_overbought) (rsi P.rsi_period prim pIdx) = true then
        some Signal.sell
      else some Signal.hold := by
  unfold generate_signal
  rw [if_neg hg, if_neg hl, hc]

/-- C1: past the warm-up guard and with both indices in range, generate_signal
returns BUY exactly when the position is flat and a bullish crossover fired
or the secondary trend is up with RSI below the overbought threshold; SELL
exactly when the position is long and a bearish crossover fired or RSI is
above the threshold; and HOLD exactly otherwise. -/
theorem C1_generate_signal_rule (P : Params) (prim sec : List ℚ) (pIdx sIdx : ℕ)
    (pos : Option Pos)
    (hp : P.slow_sma ≤ pIdx) (hs : P.trend_sma ≤ sIdx)
    (hplen : pIdx < prim.length) (hslen : sIdx < sec.length) :
    (generate_signal P prim sec pIdx sIdx pos = some Signal.buy ↔
      pos = none ∧
        (check_sma_crossover P.fast_sma P.slow_sma prim pIdx = some (some Cross.bullish) ∨
          (get_trend_direction P.trend_sma sec sIdx = some Trend.up ∧
            oLt (rsi P.rsi_period prim pIdx) (some P.rsi_overbought) = true))) ∧
    (generate_signal P prim sec pIdx sIdx pos = some Signal.sell ↔
      pos = some Pos.long ∧
        (check_sma_crossover P.fast_sma P.slow_sma prim pIdx = some (some Cross.bearish) ∨
          oLt (some P.rsi_overbought) (rsi P.rsi_period prim pIdx) = true)) ∧
    (generate_signal P prim sec pIdx sIdx pos = some Signal.hold ↔
      ¬(pos = none ∧
        (check_sma_crossover P.fast_sma P.slow_sma prim pIdx = some (some Cross.bullish) ∨
          (get_trend_direction P.trend_sma sec sIdx = some Trend.up ∧
            oLt (rsi P.rsi_period prim pIdx) (some P.rsi_overbought) = true))) ∧
      ¬(pos = some Pos.long ∧
        (check_sma_crossover P.fast_sma P.slow_sma prim pIdx = some (some Cross.bearish) ∨
          oLt (some P.rsi_overbought) (rsi P.rsi_period prim pIdx) = true))) := by
  obtain ⟨c, hc⟩ := check_sma_crossover_isSome P.fast_sma P.slow_sma prim pIdx hplen
  rw [hc]
  rcases pos with _ | ⟨⟩
  · rw [generate_signal_flat_eq P prim sec pIdx sIdx c (by omega) (by omega) hc]
    split_ifs with h <;> simp_all
  · rw [generate_signal_long_eq P prim sec pIdx sIdx c (by omega) (by omega) hc]
    split_ifs with h <;> simp_all

/-- Witness for C1: a concrete bullish-crossover bar past warm-up where the
rule yields BUY. -/
theorem C1_witness :
    generate_signal ⟨1, 2, 1, 2, 70, 30⟩ [1, 1, 5] [1, 4] 2 1 none = some Signal.buy := by
  have h := (C1_generate_signal_rule ⟨1, 2, 1, 2, 70, 30⟩ [1, 1, 5] [1, 4] 2 1 none
    (by decide) (by decide) (by decide) (by decide)).1
  apply h.mpr
  refine ⟨rfl, Or.inl ?_⟩
  norm_num [check_sma_crossover, sma, oLe, oLt, List.range_succ]
  simp

/-- C6: whenever the primary index is below slow_period or the secondary
index is below trend_period, generate_signal returns the HOLD sentinel and
raises no exception (the guard fires before any row access). -/
theorem C6_warmup_guard_hold (P : Params) (prim sec : List ℚ) (pIdx sIdx : ℕ)
    (pos : Option Pos)
    (h : pIdx < P.slow_sma ∨ sIdx < P.trend_sma) :
    generate_signal P prim sec pIdx sIdx pos = some Signal.hold := by
  unfold generate_signal
  rw [if_pos h]

/-- Witness for C6: an empty-warm-up evaluation that holds, even at an index
past the end of the primary series. -/
theorem C6_witness :
    generate_signal ⟨1, 2, 1, 2, 70, 30⟩ [1] [1] 0 5 none = some Signal.hold :=
  C6_warmup_guard_hold ⟨1, 2, 1, 2, 70, 30⟩ [1] [1] 0 5 none (Or.inl (by decide))

/-- Truncating a list past position j leaves the defaulted element there
unchanged. -/
theorem getD_take (xs : List ℚ) (n j : ℕ) (h : j < n) :
    (xs.take n).getD j 0 = xs.getD j 0 := by
  rw [List.getD_eq_getElem?_getD, List.getD_eq_getElem?_getD, List.getElem?_take, if_pos h]

/-- Validity of an index below the truncation point is unchanged by the
truncation. -/
theorem lt_length_take_iff (xs : List ℚ) (n j : ℕ) (h : j < n) :
    j < (xs.take n).length ↔ j < xs.length := by
  rw [List.length_take]
  omega

/-- The SMA at a row below the truncation point only reads rows at or before
it, so it is unchanged by the truncation. -/
theorem sma_take (w : ℕ) (xs : List ℚ) (n j : ℕ) (h : j < n) :
    sma w (xs.take n) j = sma w xs j := by
  unfold sma
  have hm : (List.map (fun k => (xs.take n).getD (j - k) 0) (List.range w)) =
      List.map (fun k => xs.getD (j - k) 0) (List.range w) := by
    apply List.map_congr_left
    intro k _
    exact getD_take xs n (j - k) (by omega)
  have hiff : (1 ≤ w ∧ w ≤ j + 1 ∧ j < (xs.take n).length) ↔
      (1 ≤ w ∧ w ≤ j + 1 ∧ j < xs.length) := by
    rw [lt_length_take_iff xs n j h]
  by_cases hc : 1 ≤ w ∧ w ≤ j + 1 ∧ j < xs.length
  · rw [if_pos (hiff.mpr hc), if_pos hc, hm]
  · rw [if_neg (fun hx => hc (hiff.mp hx)), if_neg hc]

/-- The per-bar gain reads rows j and j-1 only. -/
theorem gainAt_take (xs : List ℚ) (n j : ℕ) (h : j < n) :
    gainAt (xs.take n) j = gainAt xs j := by
  unfold gainAt
  rw [getD_take xs n j h, getD_take xs n (j - 1) (by omega)]

/-- The per-bar loss reads rows j and j-1 only. -/
theorem lossAt_take (xs : List ℚ) (n j : ℕ) (h : j < n) :
    lossAt (xs.take n) j = lossAt xs j := by
  unfold lossAt
  rw [getD_take xs n j h, getD_take xs n (j - 1) (by omega)]

/-- The rolling gain average is unchanged by truncation past its row. -/
theorem avgGain_take (p : ℕ) (xs : List ℚ) (n j : ℕ) (h : j < n) :
    avgGain p (xs.take n) j = avgGain p xs j := by
  unfold avgGain
  have hm : (List.map (fun k => gainAt (xs.take n) (j - k)) (List.range p)) =
      List.map (fun k => gainAt xs (j - k)) (List.range p) := by
    apply List.map_congr_left
    intro k _
    exact gainAt_take xs n (j - k) (by omega)
  have hiff : (1 ≤ p ∧ p ≤ j + 1 ∧ j < (xs.take n).length) ↔
      (1 ≤ p ∧ p ≤ j + 1 ∧ j < xs.length) := by
    rw [lt_length_take_iff xs n j h]
  by_cases hc : 1 ≤ p ∧ p ≤ j + 1 ∧ j < xs.length
  · rw [if_pos (hiff.mpr hc), if_pos hc, hm]
  · rw [if_neg (fun hx => hc (hiff.mp hx)), if_neg hc]

/-- The rolling loss average is unchanged by truncation past its row. -/
theorem avgLoss_take (p : ℕ) (xs : List ℚ) (n j : ℕ) (h : j < n) :
    avgLoss p (xs.take n) j = avgLoss p xs j := by
  unfold avgLoss
  have hm : (List.map (fun k => lossAt (xs.take n) (j - k)) (List.range p)) =
      List.map (fun k => lossAt xs (j - k)) (List.range p) := by
    apply List.map_congr_left
    intro k _
    exact lossAt_take xs n (j - k) (by omega)
  have hiff : (1 ≤ p ∧ p ≤ j + 1 ∧ j < (xs.take n).length) ↔
      (1 ≤ p ∧ p ≤ j + 1 ∧ j < xs.length) := by
    rw [lt_length_take_iff xs n j h]
  by_cases hc : 1 ≤ p ∧ p ≤ j + 1 ∧ j < xs.length
  · rw [if_pos (hiff.mpr hc), if_pos hc, hm]
  · rw [if_neg (fun hx => hc (hiff.mp hx)), if_neg hc]

/-- The RSI is unchanged by truncation past its row. -/
theorem rsi_take (p : ℕ) (xs : List ℚ) (n j : ℕ) (h : j < n) :
    rsi p (xs.take n) j = rsi p xs j := by
  unfold rsi
  rw [avgGain_take p xs n j h, avgLoss_take p xs n j h]

/-- The trend direction is unchanged by truncation past its row. -/
theorem get_trend_direction_take (tr : ℕ) (df : List ℚ) (n j : ℕ) (h : j < n) :
    get_trend_direction tr (df.take n) j = get_trend_direction tr df j := by
  unfold get_trend_direction
  by_cases hc : j < df.length
  · rw [if_pos ((lt_length_take_iff df n j h).mpr hc), if_pos hc,
      sma_take tr df n j h, getD_take df n j h]
  · rw [if_neg (fun hx => hc ((lt_length_take_iff df n j h).mp hx)), if_neg hc]

/-- The crossover check is unchanged by truncation past its row. -/
theorem check_sma_crossover_take (fast slow : ℕ) (df : List ℚ) (n j : ℕ) (h : j < n) :
    check_sma_crossover fast slow (df.take n) j = check_sma_crossover fast slow df j := by
  unfold check_sma_crossover
  rcases Nat.lt_or_ge j 1 with hj | hj
  · rw [if_pos hj, if_pos hj]
  · have hj1 : ¬j < 1 := by omega
    rw [if_neg hj1, if_neg hj1]
    by_cases hc : df.length ≤ j
    · have ht : (df.take n).length ≤ j := by rw [List.length_take]; omega
      rw [if_pos ht, if_pos hc]
    · have ht : ¬(df.take n).length ≤ j := by rw [List.length_take]; omega
      rw [if_neg ht, if_neg hc,
        sma_take fast df n j h, sma_take slow df n j h,
        sma_take fast df n (j - 1) (by omega), sma_take slow df n (j - 1) (by omega)]

/-- C2: the signal at bar primary_idx and secondary bar secondary_idx is the
same whether the indicators are computed on the series truncated just past
those indices or on the full series: evaluation never looks ahead of the
indexed bars. -/
theorem C2_no_lookahead (P : Params) (prim sec : List ℚ) (pIdx sIdx : ℕ)
    (pos : Option Pos) :
    generate_signal P (prim.take (pIdx + 1)) (sec.take (sIdx + 1)) pIdx sIdx pos =
      generate_signal P prim sec pIdx sIdx pos := by
  unfold generate_signal
  by_cases hg : pIdx < P.slow_sma ∨ sIdx < P.trend_sma
  · rw [if_pos hg, if_pos hg]
  · rw [if_neg hg, if_neg hg]
    by_cases hl : prim.length ≤ pIdx
    · have ht : (prim.take (pIdx + 1)).length ≤ pIdx := by rw [List.length_take]; omega
      rw [if_pos ht, if_pos hl]
    · have ht : ¬(prim.take (pIdx + 1)).length ≤ pIdx := by rw [List.length_take]; omega
      rw [if_neg ht, if_neg hl,
        rsi_take P.rsi_period prim (pIdx + 1) pIdx (by omega),
        check_sma_crossover_take P.fast_sma P.slow_sma prim (pIdx + 1) pIdx (by omega),
        get_trend_direction_take P.trend_sma sec (sIdx + 1) sIdx (by omega)]

/-- C3: at a row whose trailing RSI window holds only non-negative per-bar
deltas, at least one strictly positive, the loss average is zero and the
gain average positive, and the RSI is exactly 100 rather than a NaN or a
division error. -/
theorem C3_rsi_saturates_at_100 (p : ℕ) (xs : List ℚ) (i : ℕ)
    (hp : 1 ≤ p) (hpi : p ≤ i) (hlen : i < xs.length)
    (hmono : ∀ k < p, xs.getD (i - k - 1) 0 ≤ xs.getD (i - k) 0)
    (hpos : ∃ k < p, xs.getD (i - k - 1) 0 < xs.getD (i - k) 0) :
    rsi p xs i = some 100 := by
  have hcond : 1 ≤ p ∧ p ≤ i + 1 ∧ i < xs.length := ⟨hp, by omega, hlen⟩
  have hL : avgLoss p xs i = some 0 := by
    unfold avgLoss
    rw [if_pos hcond]
    have hz : ∀ x ∈ (List.range p).map fun k => lossAt xs (i - k), x = 0 := by
      intro x hx
      simp only [List.mem_map, List.mem_range] at hx
      obtain ⟨k, hk, rfl⟩ := hx
      unfold lossAt
      rw [if_neg (by omega)]
      dsimp only
      rw [if_neg (by have := hmono k hk; linarith)]
    rw [List.sum_eq_zero hz]
    simp
  have hgain_nonneg : ∀ x ∈ (List.range p).map fun k => gainAt xs (i - k), (0:ℚ) ≤ x := by
    intro x hx
    simp only [List.mem_map, List.mem_range] at hx
    obtain ⟨k, hk, rfl⟩ := hx
    unfold gainAt
    split_ifs with h1
    · rfl
    · dsimp only
      split_ifs with h2
      · linarith
      · rfl
  obtain ⟨k0, hk0, hlt⟩ := hpos
  have hG : ∃ g, avgGain p xs i = some g ∧ 0 < g := by
    refine ⟨(((List.range p).map fun k => gainAt xs (i - k)).sum) / (p : ℚ), ?_, ?_⟩
    · unfold avgGain
      rw [if_pos hcond]
    · apply div_pos
      · have hmem : gainAt xs (i - k0) ∈ (List.range p).map fun k => gainAt xs (i - k) := by
          simp only [List.mem_map, List.mem_range]
          exact ⟨k0, hk0, rfl⟩
        have hle := List.single_le_sum hgain_nonneg _ hmem
        have hgpos : 0 < gainAt xs (i - k0) := by
          unfold gainAt
          rw [if_neg (by omega)]
          dsimp only
          rw [if_pos (by linarith)]
          linarith
        linarith
      · exact_mod_cast hp
  obtain ⟨g, hg, hgpos⟩ := hG
  unfold rsi
  rw [hg, hL]
  simp [hgpos.ne']

/-- Witness for C3: a three-bar series holding flat then rising over a
two-bar RSI window, whose RSI is exactly 100. -/
theorem C3_witness : rsi 2 [1, 1, 2] 2 = some 100 :=
  C3_rsi_saturates_at_100 2 [1, 1, 2] 2 (by decide) (by decide) (by decide)
    (by decide) (by decide)

/-- C7: when the fast SMA moves from at-most the slow SMA to strictly above
it across rows i-1 and i, BULLISH is reported at row i and not again at row
i+1: the event fires exactly once, at the later of the two bars it spans. -/
theorem C7_bullish_crossover_once (fast slow : ℕ) (df : List ℚ) (i : ℕ)
    (fp sp fc sc : ℚ)
    (hi : 1 ≤ i) (hlen : i + 1 < df.length)
    (hfp : sma fast df (i - 1) = some fp) (hsp : sma slow df (i - 1) = some sp)
    (hfc : sma fast df i = some fc) (hsc : sma slow df i = some sc)
    (h1 : fp ≤ sp) (h2 : sc < fc) :
    check_sma_crossover fast slow df i = some (some Cross.bullish) ∧
    check_sma_crossover fast slow df (i + 1) ≠ some (some Cross.bullish) := by
  constructor
  · unfold check_sma_crossover
    rw [if_neg (by omega), if_neg (by omega)]
    dsimp only
    rw [hfp, hsp, hfc, hsc]
    rw [if_neg (by simp)]
    rw [if_pos (by simp [oLe, oLt, h1, h2])]
  · unfold check_sma_crossover
    rw [if_neg (by omega), if_neg (by omega)]
    dsimp only
    have hprev : i + 1 - 1 = i := by omega
    rw [hprev, hfc, hsc]
    have hnle : oLe (some fc) (some sc) = false := by
      simp [oLe]
      linarith
    split_ifs with ha hb hcnd <;> simp_all

/-- Witness for C7: a concrete fast-over-slow swap between bars 1 and 2 of a
four-bar series, reported BULLISH at bar 2 only. -/
theorem C7_witness :
    check_sma_crossover 1 2 [1, 1, 5, 5] 2 = some (some Cross.bullish) ∧
    check_sma_crossover 1 2 [1, 1, 5, 5] 3 ≠ some (some Cross.bullish) :=
  C7_bullish_crossover_once 1 2 [1, 1, 5, 5] 2 1 1 5 3 (by decide) (by decide)
    (by norm_num [sma, List.range_succ]) (by norm_num [sma, List.range_succ])
    (by norm_num [sma, List.range_succ]) (by norm_num [sma, List.range_succ])
    (by norm_num) (by norm_num)

/-- A BUY is only ever emitted from the flat position. -/
theorem generate_signal_buy_flat (P : Params) (prim sec : List ℚ) (pIdx sIdx : ℕ)
    (pos : Option Pos) (h : generate_signal P prim sec pIdx sIdx pos = some Signal.buy) :
    pos = none := by
  rcases pos with _ | ⟨⟩
  · rfl
  · exfalso
    unfold generate_signal at h
    split_ifs at h
    · exact Signal.noConfusion (Option.some.inj h)
    · revert h
      dsimp only
      cases check_sma_crossover P.fast_sma P.slow_sma prim pIdx with
      | none => simp
      | some c =>
          dsimp only
          split_ifs <;> simp

/-- A SELL is only ever emitted from the long position. -/
theorem generate_signal_sell_long (P : Params) (prim sec : List ℚ) (pIdx sIdx : ℕ)
    (pos : Option Pos) (h : generate_signal P prim sec pIdx sIdx pos = some Signal.sell) :
    pos = some Pos.long := by
  rcases pos with _ | ⟨⟩
  · exfalso
    unfold generate_signal at h
    split_ifs at h
    · exact Signal.noConfusion (Option.some.inj h)
    · revert h
      dsimp only
      cases check_sma_crossover P.fast_sma P.slow_sma prim pIdx with
      | none => simp
      | some c =>
          dsimp only
          split_ifs <;> simp
  · rfl

/-- The trace of any run is disciplined with respect to the position the
run starts from. -/
theorem run_goodTrace (P : Params) : ∀ (obs : List Obs) (st : StratState),
    goodTrace st.position (run P st obs) = true := by
  intro obs
  induction obs with
  | nil => intro st; simp [run, goodTrace]
  | cons ob rest ih =>
      intro st
      simp only [run]
      cases hg : generate_signal P ob.prim ob.sec ob.primary_idx ob.secondary_idx st.position with
      | none => cases st.position with
          | none => simp [goodTrace]
          | some p => cases p; simp [goodTrace]
      | some s =>
          cases s with
          | buy =>
              have hflat := generate_signal_buy_flat P ob.prim ob.sec _ _ _ hg
              rw [hflat]
              have : (update_position Signal.buy ob.price st).position = some Pos.long := rfl
              simpa [goodTrace, this] using ih (update_position Signal.buy ob.price st)
          | sell =>
              have hlong := generate_signal_sell_long P ob.prim ob.sec _ _ _ hg
              rw [hlong]
              have : (update_position Signal.sell ob.price st).position = none := rfl
              simpa [goodTrace, this] using ih (update_position Signal.sell ob.price st)
          | hold =>
              dsimp only
              rw [show update_position Signal.hold ob.price st = st from rfl]
              cases hp : st.position with
              | none => simpa [goodTrace, hp] using ih st
              | some p =>
                  cases p
                  simpa [goodTrace, hp] using ih st

/-- C5: starting flat and applying each emitted signal to the position
before the next evaluation, the signal sequence never sells while flat and
never buys twice without an intervening sell. -/
theorem C5_position_trace_invariant (P : Params) (obs : List Obs) :
    goodTrace none (run P ⟨none, none⟩ obs) = true := by
  simpa using run_goodTrace P obs ⟨none, none⟩

/-- C9: the generate_signal method, threaded through the instance state it
reads, returns exactly the pure signal of the incoming position together
with the state unchanged: it never writes position or entry_price, which
only update_position does. -/
theorem C9_generate_signal_pure (P : Params) (prim sec : List ℚ) (pIdx sIdx : ℕ)
    (st : StratState) :
    generate_signalS P prim sec pIdx sIdx st =
      (generate_signal P prim sec pIdx sIdx st.position, st) := by
  unfold generate_signalS generate_signal
  split_ifs
  · rfl
  · rfl
  · dsimp only
    cases check_sma_crossover P.fast_sma P.slow_sma prim pIdx with
    | none => rfl
    | some c =>
        dsimp only
        rcases st.position with _ | ⟨⟩ <;> dsimp only <;> split_ifs <;> rfl

/-- C4: with one BUY on each side, a time difference within the window gives
one match and no unmatched records; a difference beyond the window gives no
match and one unmatched record on each side. -/
theorem C4_single_buy_matching (t1 t2 W : ℤ) :
    (|t2 - t1| ≤ W →
      compare_trades W [⟨Side.buy, t1⟩] [⟨Side.buy, t2⟩] = (1, 0, 0)) ∧
    (W < |t2 - t1| →
      compare_trades W [⟨Side.buy, t1⟩] [⟨Side.buy, t2⟩] = (0, 1, 1)) := by
  constructor
  · intro h
    simp [compare_trades, compareGo, findMatch, h]
  · intro h
    simp [compare_trades, compareGo, findMatch, not_le.mpr h]

/-- Witness for C4: timestamps 10 seconds apart inside a 180-second window
match; 400 seconds apart they do not. -/
theorem C4_witness :
    compare_trades 180 [⟨Side.buy, 0⟩] [⟨Side.buy, 10⟩] = (1, 0, 0) ∧
    compare_trades 180 [⟨Side.buy, 0⟩] [⟨Side.buy, 400⟩] = (0, 1, 1) :=
  ⟨(C4_single_buy_matching 0 10 180).1 (by decide),
    (C4_single_buy_matching 0 400 180).2 (by decide)⟩

/-- The inner scan returns an index of a live row, beyond the start offset
and not yet used. -/
theorem findMatch_some_spec (W : ℤ) (bt : Trade) :
    ∀ (l : List Trade) (j0 : ℕ) (used : Finset ℕ) (j : ℕ),
      findMatch W bt l j0 used = some j → j0 ≤ j ∧ j < j0 + l.length ∧ j ∉ used := by
  intro l
  induction l with
  | nil => intro j0 used j h; simp [findMatch] at h
  | cons lv rest ih =>
      intro j0 used j h
      unfold findMatch at h
      split_ifs at h with hcnd
      · have hj : j0 = j := Option.some.inj h
        subst hj
        exact ⟨le_refl _, by simp only [List.length_cons]; omega, hcnd.1⟩
      · obtain ⟨h1, h2, h3⟩ := ih (j0 + 1) used j h
        exact ⟨by omega, by simp only [List.length_cons]; omega, h3⟩

/-- Every backtest row is counted exactly once, as matched or as unmatched. -/
theorem compareGo_count (W : ℤ) (lvs : List Trade) :
    ∀ (bts : List Trade) (used : Finset ℕ),
      (compareGo W lvs bts used).matched_trades +
        (compareGo W lvs bts used).unmatched_backtest = bts.length := by
  intro bts
  induction bts with
  | nil => intro used; simp [compareGo]
  | cons bt rest ih =>
      intro used
      unfold compareGo
      cases hf : findMatch W bt lvs 0 used with
      | some j =>
          dsimp only
          have := ih (insert j used)
          simp only [List.length_cons]
          omega
      | none =>
          dsimp only
          have := ih used
          simp only [List.length_cons]
          omega

/-- The used-live set grows by exactly one fresh valid index per match, and
stays inside the range of live indices. -/
theorem compareGo_used_spec (W : ℤ) (lvs : List Trade) :
    ∀ (bts : List Trade) (used : Finset ℕ), used ⊆ Finset.range lvs.length →
      (compareGo W lvs bts used).used_live.card =
          used.card + (compareGo W lvs bts used).matched_trades ∧
        (compareGo W lvs bts used).used_live ⊆ Finset.range lvs.length := by
  intro bts
  induction bts with
  | nil => intro used hsub; simp [compareGo, hsub]
  | cons bt rest ih =>
      intro used hsub
      unfold compareGo
      cases hf : findMatch W bt lvs 0 used with
      | some j =>
          dsimp only
          obtain ⟨_, hlt, hnotmem⟩ := findMatch_some_spec W bt lvs 0 used j hf
          have hsub2 : insert j used ⊆ Finset.range lvs.length := by
            intro x hx
            rcases Finset.mem_insert.mp hx with rfl | hx2
            · exact Finset.mem_range.mpr (by omega)
            · exact hsub hx2
          obtain ⟨hcard, hsub3⟩ := ih (insert j used) hsub2
          refine ⟨?_, hsub3⟩
          rw [hcard, Finset.card_insert_of_not_mem hnotmem]
          omega
      | none =>
          dsimp only
          exact ih used hsub

/-- C10: the comparison conserves counts: matched plus unmatched backtest is
the number of backtest rows, matched plus unmatched live is the number of
live rows, and the set of used live indices has exactly one member per
match, so no live record is paired twice. -/
theorem C10_count_conservation (W : ℤ) (bts lvs : List Trade) :
    (compare_trades W bts lvs).1 + (compare_trades W bts lvs).2.1 = bts.length ∧
    (compare_trades W bts lvs).1 + (compare_trades W bts lvs).2.2 = lvs.length ∧
    (compareGo W lvs bts ∅).used_live.card = (compare_trades W bts lvs).1 := by
  have hcount := compareGo_count W lvs bts ∅
  have hused := compareGo_used_spec W lvs bts ∅ (by simp)
  obtain ⟨hcard, hsub⟩ := hused
  have hle : (compareGo W lvs bts ∅).used_live.card ≤ lvs.length := by
    have := Finset.card_le_card hsub
    simpa using this
  unfold compare_trades
  dsimp only
  refine ⟨hcount, ?_, by simpa using hcard⟩
  simp only [Finset.card_empty, Nat.zero_add] at hcard
  omega

/-- Counterexample for C8: a timeframe with the unknown unit x is not fatal:
the parser substitutes the 60-second default (with a warning) and the engine
proceeds into its loop with that interval. -/
theorem C8_counterexample :
    parse_timeframe_to_seconds ['1', '5', 'x'] = some 60 := by decide

/-- C8 amended: for a timeframe whose unit suffix is not m, h or d, the
parser returns the substituted 60-second default instead of aborting, and a
LIMIT order with no price raises ValueError at order-creation time in
create_order (not at engine startup; the live engine only submits MARKET
orders). -/
theorem C8_amended (tf : List Char)
    (hm : tf.getLast? ≠ some 'm') (hh : tf.getLast? ≠ some 'h')
    (hd : tf.getLast? ≠ some 'd') :
    parse_timeframe_to_seconds tf = some 60 ∧
      create_order_check "LIMIT" none = Except.error "Price required for LIMIT orders" := by
  refine ⟨?_, rfl⟩
  unfold parse_timeframe_to_seconds
  rw [if_neg hm, if_neg hh, if_neg hd]

/-- Witness for C8 amended: the timeframe 15x parses to the 60-second
default and the price check rejects the priceless LIMIT order. -/
theorem C8_witness :
    parse_timeframe_to_seconds ['1', '5', 'x'] = some 60 ∧
      create_order_check "LIMIT" none = Except.error "Price required for LIMIT orders" :=
  C8_amended ['1', '5', 'x'] (by decide) (by decide) (by decide)

end Trading
